import Mathlib

/-!
Verification of the zmqpp multi-part message core (endian codec,
message container, signal encoding) against a shallow Lean embedding.

Sources embedded:
  src/zmqpp/endian.hpp   - the big-endian byte-stream converters
  src/zmqpp/message.hpp  - the message class surfaces (templates, stream ops)
  src/zmqpp/message.cpp  - the message class implementation

Conventions of the embedding:
  - A byte stream is a `List Nat`; each entry stands for one `uint8_t`
    value, therefore meaningful inputs satisfy `b < 256` for every entry
    (the iterator dereference in the source yields `uint8_t`, which
    guarantees this bound; theorems carry it as a hypothesis where the
    source relies on it).
  - Fixed-width unsigned machine integers are `Nat` with an explicit
    bound `x < 2 ^ w`; signed ones are `Int` with two-sided bounds and
    two-complement conversion is written out explicitly.
  - `size_t` arithmetic that can wrap is written with an explicit
    `% 2 ^ 64`.
  - The converters in endian.hpp each have a platform branch (htobe/betoh)
    and a portable shift-and-mask branch; the source documents that both
    produce identical byte streams (a stated design requirement), so the
    embedding is the portable branch, which is the branch whose algorithm
    the source spells out.
  - C++ code that throws `zmqpp::exception` is modelled with an explicit
    result type; code whose behaviour the C++ standard leaves undefined
    (unchecked iterator arithmetic, failed assert) is modelled by a
    distinguished `undefined` outcome, not by a thrown error.
-/

namespace zmqpp

/-- Two-complement representation: `static_cast` of a signed value of
width `w` bits to the unsigned type of the same width, as performed by
the `int16_t/int32_t/int64_t` converter specialisations
(`static_cast<uint16_t>(x)` etc.). Mathematically: `x mod 2 ^ w`. -/
def toUnsigned (w : Nat) (x : Int) : Nat :=
  (x % ((2 : Int) ^ w)).toNat

/-- Two-complement reinterpretation: `static_cast` of an unsigned value
of width `w` bits back to the signed type of the same width, as in
`static_cast<int16_t>(...)` inside the `from_be` specialisations. -/
def toSigned (w : Nat) (u : Nat) : Int :=
  if u < 2 ^ (w - 1) then (u : Int) else (u : Int) - (2 : Int) ^ w

/-- endian.hpp, `to_be_bytestream_converter<_ByteIter, uint16_t, 2>`,
portable branch: two stores of `(x >> 8) & 0xFF` and `x & 0xFF`. -/
def to_be_u16 (x : Nat) : List Nat :=
  [(x >>> 8) &&& 0xFF, x &&& 0xFF]

/-- endian.hpp, `to_be_bytestream_converter<_ByteIter, int16_t, 2>`:
casts to `uint16_t` and delegates. -/
def to_be_i16 (x : Int) : List Nat :=
  to_be_u16 (toUnsigned 16 x)

/-- endian.hpp, `to_be_bytestream_converter<_ByteIter, uint32_t, 4>`,
portable branch: four stores of `(x >> 24) & 0xFF` ... `x & 0xFF`. -/
def to_be_u32 (x : Nat) : List Nat :=
  [(x >>> 24) &&& 0xFF, (x >>> 16) &&& 0xFF, (x >>> 8) &&& 0xFF, x &&& 0xFF]

/-- endian.hpp, `to_be_bytestream_converter<_ByteIter, int32_t, 4>`:
casts to `uint32_t` and delegates. -/
def to_be_i32 (x : Int) : List Nat :=
  to_be_u32 (toUnsigned 32 x)

/-- endian.hpp, `to_be_bytestream_converter<_ByteIter, uint64_t, 8>`,
portable branch, `__WORDSIZE == 64` variant: splits into
`hi = x >> 32` and `lo = x` (both held in `uint64_t`) and stores
`(hi >> 24) & 0xFF` ... `hi & 0xFF`, `(lo >> 24) & 0xFF` ... `lo & 0xFF`. -/
def to_be_u64 (x : Nat) : List Nat :=
  [(x >>> 32 >>> 24) &&& 0xFF, (x >>> 32 >>> 16) &&& 0xFF,
   (x >>> 32 >>> 8) &&& 0xFF, (x >>> 32) &&& 0xFF,
   (x >>> 24) &&& 0xFF, (x >>> 16) &&& 0xFF, (x >>> 8) &&& 0xFF, x &&& 0xFF]

/-- endian.hpp, `to_be_bytestream_converter<_ByteIter, int64_t, 8>`:
casts to `uint64_t` and delegates. -/
def to_be_i64 (x : Int) : List Nat :=
  to_be_u64 (toUnsigned 64 x)

/-- endian.hpp, the specialisation for 32 bit types that are not
plain 32 bit words (used for `float`): the union overlay reinterprets
the value bit-for-bit as a `uint32_t` and delegates. A `float` value is
therefore embedded as its IEEE-754 bit pattern (a `Nat` below `2 ^ 32`),
on which the reinterpretation is the identity. -/
def to_be_f32 (pattern : Nat) : List Nat :=
  to_be_u32 pattern

/-- endian.hpp, the specialisation for 64 bit types that are not
plain 64 bit words (used for `double`): bit-for-bit reinterpretation as
`uint64_t`, then delegation. -/
def to_be_f64 (pattern : Nat) : List Nat :=
  to_be_u64 pattern

/-- endian.hpp, `from_be_bytestream_converter<_ByteIter, uint16_t, 2>`,
portable branch: `(uint16(*src++) << 8) | uint16(*src++)`. The integer
arithmetic is exact for byte-valued input (each entry below 256). -/
def from_be_u16 (src : List Nat) : Nat :=
  (src.getD 0 0 <<< 8) ||| src.getD 1 0

/-- endian.hpp, `from_be_bytestream_converter<_ByteIter, int16_t, 2>`:
reads the unsigned value and casts it with `static_cast<int16_t>`. -/
def from_be_i16 (src : List Nat) : Int :=
  toSigned 16 (from_be_u16 src)

/-- endian.hpp, `from_be_bytestream_converter<_ByteIter, uint32_t, 4>`,
portable branch: four byte loads shifted by 24, 16, 8, 0 and or-ed
together (left associated, as in the source). -/
def from_be_u32 (src : List Nat) : Nat :=
  (src.getD 0 0 <<< 24) ||| (src.getD 1 0 <<< 16) |||
    (src.getD 2 0 <<< 8) ||| src.getD 3 0

/-- endian.hpp, `from_be_bytestream_converter<_ByteIter, int32_t, 4>`:
reads the unsigned value and casts it with `static_cast<int32_t>`. -/
def from_be_i32 (src : List Nat) : Int :=
  toSigned 32 (from_be_u32 src)

/-- endian.hpp, `from_be_bytestream_converter<_ByteIter, uint64_t, 8>`,
portable branch, `__WORDSIZE == 64` variant: the first four bytes are
combined and shifted left by 32, then or-ed with the combination of the
last four bytes (associativity as in the source expression). -/
def from_be_u64 (src : List Nat) : Nat :=
  (((src.getD 0 0 <<< 24) ||| (src.getD 1 0 <<< 16) |||
      (src.getD 2 0 <<< 8) ||| src.getD 3 0) <<< 32) |||
    (src.getD 4 0 <<< 24) ||| (src.getD 5 0 <<< 16) |||
    (src.getD 6 0 <<< 8) ||| src.getD 7 0

/-- endian.hpp, `from_be_bytestream_converter<_ByteIter, int64_t, 8>`:
reads the unsigned value and casts it with `static_cast<int64_t>`. -/
def from_be_i64 (src : List Nat) : Int :=
  toSigned 64 (from_be_u64 src)

/-- endian.hpp, 32-bit non-word specialisation of `from_be` (used for
`float`): reads the `uint32_t` and reinterprets its bits as the target
type; on the bit-pattern embedding this is the identity. -/
def from_be_f32 (src : List Nat) : Nat :=
  from_be_u32 src

/-- endian.hpp, 64-bit non-word specialisation of `from_be` (used for
`double`). -/
def from_be_f64 (src : List Nat) : Nat :=
  from_be_u64 src

/-- The scalar types supported by the codec, per the convenience
functions `to_be` and `from_be` of endian.hpp: signed and unsigned
16/32/64 bit integers and 32/64 bit floating point. -/
inductive scalar_type where
  | u16 | i16 | u32 | i32 | u64 | i64 | f32 | f64
deriving DecidableEq, Repr

/-- Byte width of each supported scalar type (`sizeof(T)`). -/
def scalar_type.width : scalar_type → Nat
  | .u16 | .i16 => 2
  | .u32 | .i32 | .f32 => 4
  | .u64 | .i64 | .f64 => 8

/-- The fixed-width integer members of the supported scalar types. -/
def scalar_type.integer : scalar_type → Bool
  | .u16 | .i16 | .u32 | .i32 | .u64 | .i64 => true
  | .f32 | .f64 => false

/-- The representable values of each supported type, as integers:
the full unsigned range for unsigned types, the two-complement range
for signed types, and for the floating point types the set of IEEE-754
bit patterns of the right width (the embedding of a float value is its
bit pattern, which the union overlay of the source preserves exactly). -/
def scalar_type.representable : scalar_type → Int → Prop
  | .u16, x => 0 ≤ x ∧ x < 2 ^ 16
  | .i16, x => -(2 ^ 15) ≤ x ∧ x < 2 ^ 15
  | .u32, x => 0 ≤ x ∧ x < 2 ^ 32
  | .i32, x => -(2 ^ 31) ≤ x ∧ x < 2 ^ 31
  | .u64, x => 0 ≤ x ∧ x < 2 ^ 64
  | .i64, x => -(2 ^ 63) ≤ x ∧ x < 2 ^ 63
  | .f32, x => 0 ≤ x ∧ x < 2 ^ 32
  | .f64, x => 0 ≤ x ∧ x < 2 ^ 64

/-- Dispatch of `zmqpp::to_be` on the supported type, exactly as the
template machinery of endian.hpp dispatches on `(type, sizeof)`. -/
def to_be : scalar_type → Int → List Nat
  | .u16, x => to_be_u16 x.toNat
  | .i16, x => to_be_i16 x
  | .u32, x => to_be_u32 x.toNat
  | .i32, x => to_be_i32 x
  | .u64, x => to_be_u64 x.toNat
  | .i64, x => to_be_i64 x
  | .f32, x => to_be_f32 x.toNat
  | .f64, x => to_be_f64 x.toNat

/-- Dispatch of `zmqpp::from_be<T>` on the supported type. -/
def from_be : scalar_type → List Nat → Int
  | .u16, src => from_be_u16 src
  | .i16, src => from_be_i16 src
  | .u32, src => from_be_u32 src
  | .i32, src => from_be_i32 src
  | .u64, src => from_be_u64 src
  | .i64, src => from_be_i64 src
  | .f32, src => from_be_f32 src
  | .f64, src => from_be_f64 src

/-- Modelled from the spec: frame.hpp is not among the given sources.
Per the spec (section 3, Frame and section 4.1) a frame is one byte
buffer of immutable length with a one-way `sent` flag; the ownership
modes do not influence the byte content seen through the message
interface, so the embedding keeps only the content and the flag.
The frame constructor used by the message append/prepend operations
(create by copying external bytes) duplicates the given bytes. -/
structure frame where
  bytes : List Nat
  sent : Bool
deriving DecidableEq, Repr, Inhabited

/-- Modelled from the spec: `frame::copy()` produces an independent
duplicate of the content regardless of ownership mode (spec 4.1);
the duplicate is a fresh owned frame, not yet sent. -/
def frame.copy (f : frame) : frame :=
  { bytes := f.bytes, sent := false }

/-- message.hpp: `class message` holds `parts_type _parts` (a
`std::deque<frame>`, modelled as a list, front at the head) and
`std::size_t _read_cursor`. -/
structure message where
  _parts : List frame
  _read_cursor : Nat
deriving DecidableEq, Repr

/-- message.cpp: the default constructor `message::message()`
initialises `_read_cursor` to 0 and leaves `_parts` empty. -/
def message.mk0 : message :=
  { _parts := [], _read_cursor := 0 }

/-- message.cpp: `size_t message::parts() const` returns
`_parts.size()`. -/
def message.parts (m : message) : Nat :=
  m._parts.length

/-- Outcome of a message member call in the embedding: a value, a
thrown `zmqpp::exception` carrying the range message
("attempting to request a message part outside the valid range"),
or behaviour the C++ standard leaves undefined (an out-of-bounds
`deque` iterator or `operator[]`, or a failed `assert`). -/
inductive access_result (α : Type) where
  | ok (val : α)
  | range_error
  | undefined
deriving DecidableEq, Repr

/-- message.cpp: `size_t message::size(std::size_t part)` throws the
range exception when `part >= _parts.size()`, else returns
`_parts[part].size()`. -/
def message.size (m : message) (part : Nat) : access_result Nat :=
  if h : part < m._parts.length then
    .ok (m._parts[part].bytes.length)
  else
    .range_error

/-- message.cpp: `void const* message::raw_data(std::size_t part)`
throws the range exception when `part >= _parts.size()`, else returns
the data pointer of the part; the embedding returns the bytes the
pointer gives access to. -/
def message.raw_data (m : message) (part : Nat) : access_result (List Nat) :=
  if h : part < m._parts.length then
    .ok (m._parts[part].bytes)
  else
    .range_error

/-- message.cpp: `zmq_msg_t& message::raw_msg(std::size_t part)` throws
the range exception when `part >= _parts.size()`, else returns a
reference to the raw frame; the embedding returns the frame. -/
def message.raw_msg (m : message) (part : Nat) : access_result frame :=
  if h : part < m._parts.length then
    .ok (m._parts[part])
  else
    .range_error

/-- message.hpp: `get<std::string>(part)` builds the string from
`raw_data(part)` and `size(part)`, hence copies exactly `size(part)`
bytes and propagates the range exception of `raw_data`. -/
def message.get_string (m : message) (part : Nat) : access_result (List Nat) :=
  m.raw_data part

/-- message.hpp: `get<long>(part)` (the `int64_t` instantiation on the
targeted LP64 platforms) asserts `sizeof(long) == size(part)` and
decodes the frame with `from_be<long>`. The embedding propagates the
range exception of `raw_data`/`size`, treats a failed assert (frame of
the wrong width) as undefined, and otherwise decodes the 8 frame
bytes. -/
def message.get_i64 (m : message) (part : Nat) : access_result Int :=
  if h : part < m._parts.length then
    if m._parts[part].bytes.length = 8 then
      .ok (from_be_i64 m._parts[part].bytes)
    else
      .undefined
  else
    .range_error

/-- message.hpp: `add_raw(content, data_size)` does
`_parts.emplace_back(content, data_size)`: a new trailing frame copying
the given bytes. -/
def message.add_raw (m : message) (content : List Nat) : message :=
  { m with _parts := m._parts ++ [{ bytes := content, sent := false }] }

/-- strlen over the byte image of a C string: the number of bytes
before the first NUL byte (the whole list when no NUL occurs). -/
def cstrlen : List Nat → Nat
  | [] => 0
  | b :: rest => if b = 0 then 0 else cstrlen rest + 1

/-- message.hpp: `operator<< <const char*>` does
`add_raw(c_string, strlen(c_string))`. The argument is the byte image
the pointer gives access to; `strlen` stops at the first NUL. -/
def message.stream_write_cstr (m : message) (mem : List Nat) : message :=
  m.add_raw (mem.take (cstrlen mem))

/-- message.hpp: `operator<< <std::string>` forwards to the
`const char*` inserter through `std_string.c_str()`; `c_str()` exposes
the string bytes followed by a NUL terminator. `s` is the full byte
content of the `std::string`, embedded NUL bytes included. -/
def message.stream_write_string (m : message) (s : List Nat) : message :=
  m.stream_write_cstr (s ++ [0])

/-- message.hpp: the generic `operator<< <_Type>` writes
`to_be(content, msg.raw_new_data(sizeof(_Type)))`: it appends one new
trailing frame of `sizeof(_Type)` bytes and fills it with the
big-endian encoding. -/
def message.stream_write_scalar (m : message) (t : scalar_type) (x : Int) :
    message :=
  { m with _parts := m._parts ++ [{ bytes := to_be t x, sent := false }] }

/-- message.cpp: `push_front(void const*, size)` does
`_parts.emplace_front(content, size)`. -/
def message.push_front (m : message) (content : List Nat) : message :=
  { m with _parts := { bytes := content, sent := false } :: m._parts }

/-- message.cpp: `push_front(char const*)` forwards with
`strlen(c_string)`. -/
def message.push_front_cstr (m : message) (mem : List Nat) : message :=
  m.push_front (mem.take (cstrlen mem))

/-- message.cpp: `push_front(std::string const&)` forwards with
`string.data(), string.size()` (full byte content, no strlen). -/
def message.push_front_string (m : message) (s : List Nat) : message :=
  m.push_front s

/-- message.cpp: `pop_front()` does `_parts.pop_front()`; the cursor is
not touched. Calling it on an empty deque is undefined, modelled by
`List.tail` on `[]` for the part list (which the claims never hit). -/
def message.pop_front (m : message) : message :=
  { m with _parts := m._parts.tail }

/-- message.cpp: `push_back(void const*, size)` forwards to
`add_raw`. -/
def message.push_back (m : message) (content : List Nat) : message :=
  m.add_raw content

/-- message.cpp: `pop_back()` does `_parts.pop_back()`. -/
def message.pop_back (m : message) : message :=
  { m with _parts := m._parts.dropLast }

/-- message.cpp: `remove(part)` does
`_parts.erase(_parts.begin() + part)` with no bounds check: for an
index at or past `parts()` the iterator arithmetic is undefined
behaviour (no exception is thrown on any path). -/
def message.remove (m : message) (part : Nat) : access_result message :=
  if part < m._parts.length then
    .ok { m with _parts := m._parts.eraseIdx part }
  else
    .undefined

/-- message.cpp: `sent(part)` does `assert(!_parts[part].is_sent())`
then `_parts[part].mark_sent()`, with no bounds check: an out-of-range
index indexes the deque out of bounds (undefined), and an already-sent
frame fails the assert (fatal, not a thrown error). -/
def message.sent_op (m : message) (part : Nat) : access_result message :=
  if h : part < m._parts.length then
    if m._parts[part].sent then
      .undefined
    else
      .ok { m with
            _parts := m._parts.set part
              { bytes := m._parts[part].bytes, sent := true } }
  else
    .undefined

/-- message.hpp: `reset_read_cursor()` rewinds `_read_cursor` to 0. -/
def message.reset_read_cursor (m : message) : message :=
  { m with _read_cursor := 0 }

/-- message.hpp: `size_t next()` returns `++_read_cursor`,
unconditionally. -/
def message.next (m : message) : message × Nat :=
  ({ m with _read_cursor := m._read_cursor + 1 }, m._read_cursor + 1)

/-- message.hpp: `size_t remaining()` returns
`_parts.size() - _read_cursor` in `size_t` arithmetic, which wraps
modulo `2 ^ 64` when the cursor exceeds the part count. -/
def message.remaining (m : message) : Nat :=
  (2 ^ 64 + m._parts.length - m._read_cursor) % 2 ^ 64

/-- message.hpp: `operator>>(message&, Type&)` evaluates
`msg.get<Type>(msg._read_cursor++)`: the cursor is incremented (the
increment is sequenced before the call), and `get` runs on the old
cursor value; a thrown exception leaves the incremented cursor in
place. This is the `std::string` target instantiation. -/
def message.stream_read_string (m : message) :
    message × access_result (List Nat) :=
  ({ m with _read_cursor := m._read_cursor + 1 },
   m.get_string m._read_cursor)

/-- message.hpp: `operator>>` for an `int64_t` (`long`) target. -/
def message.stream_read_i64 (m : message) :
    message × access_result Int :=
  ({ m with _read_cursor := m._read_cursor + 1 },
   m.get_i64 m._read_cursor)

/-- message.cpp: the move constructor `message(message&& source)` has
an empty initialiser list: `_parts` is default-constructed empty, but
`_read_cursor` is a scalar left uninitialised (indeterminate), and the
body swaps the whole state with `source`. `init_cursor` stands for the
indeterminate initial value of the new `_read_cursor`. Returns
(destination, source after the move). -/
def message.move_construct (source : message) (init_cursor : Nat) :
    message × message :=
  ({ _parts := source._parts, _read_cursor := source._read_cursor },
   { _parts := [], _read_cursor := init_cursor })

/-- message.cpp: `operator=(message&& rhs)` calls
`reset_read_cursor()` on `*this` and then swaps the whole state with
`rhs`. Returns (destination after, rhs after). -/
def message.move_assign (dest rhs : message) : message × message :=
  ({ _parts := rhs._parts, _read_cursor := rhs._read_cursor },
   { _parts := dest._parts, _read_cursor := 0 })

/-- message.cpp: `copy(const message& source)` copies the cursor and
deep-copies every frame via `frame::copy`. -/
def message.copy_in (source : message) : message :=
  { _parts := source._parts.map frame.copy,
    _read_cursor := source._read_cursor }

/-- Modelled from the spec: signal.hpp is not among the given sources.
Per the spec (section 3, Signal and section 4.4) a signal is a 64 bit
value whose low byte is the control code and whose remaining 56 bits
are a constant reserved header pattern; `signal::header` is that
pattern as the `int64_t` obtained by discarding the low byte. The
embedding keeps the header pattern as a parameter `hdr` instead of
fixing the (unknown) constant. -/
def signal_value (hdr : Int) (code : Nat) : Int :=
  hdr * 256 + code

/-- Modelled from the spec: `sizeof(signal)` is the fixed 8-byte
signal-frame width (the enum has underlying type `int64_t`). -/
def signal_frame_width : Nat := 8

/-- C++ signed right shift by 8 on `int64_t` (as in
`get<int64_t>(0) >> 8`): an arithmetic shift, i.e. floor division by
256, which is Lean division on `Int`. -/
def sar8 (v : Int) : Int := v / 256

/-- message.cpp: `is_signal()` returns
`parts() == 1 && size(0) == sizeof(signal) &&
 static_cast<signal>(get<int64_t>(0) >> 8) == signal::header`.
Short-circuit evaluation guarantees `size(0)` and `get<int64_t>(0)`
only run once `parts() == 1` (so they cannot throw), and the decode
only runs once the frame width is 8 (so its assert holds). -/
def message.is_signal (hdr : Int) (m : message) : Bool :=
  m.parts == 1 &&
    (m._parts.getD 0 { bytes := [], sent := false }).bytes.length ==
      signal_frame_width &&
    sar8 (from_be_i64 (m._parts.getD 0 { bytes := [], sent := false }).bytes)
      == hdr

/-- message.hpp: `operator<< <signal>` inserts
`static_cast<int64_t>(sig)` through the generic scalar inserter. -/
def message.stream_write_signal (m : message) (hdr : Int) (code : Nat) :
    message :=
  m.stream_write_scalar .i64 (signal_value hdr code)

/-- The states reachable from a fresh message by stream insertion,
push front/back, cursor reset, and stream extraction performed only
while the cursor is strictly below the part count (the reads the
source itself performs before the stream is exhausted). -/
inductive message.SafeReach : message → Prop where
  | empty : message.SafeReach message.mk0
  | write_scalar {m} (t : scalar_type) (x : Int) :
      message.SafeReach m → message.SafeReach (m.stream_write_scalar t x)
  | write_cstr {m} (s : List Nat) :
      message.SafeReach m → message.SafeReach (m.stream_write_cstr s)
  | write_string {m} (s : List Nat) :
      message.SafeReach m → message.SafeReach (m.stream_write_string s)
  | add_raw {m} (s : List Nat) :
      message.SafeReach m → message.SafeReach (m.add_raw s)
  | push_front {m} (s : List Nat) :
      message.SafeReach m → message.SafeReach (m.push_front s)
  | push_back {m} (s : List Nat) :
      message.SafeReach m → message.SafeReach (m.push_back s)
  | reset {m} :
      message.SafeReach m → message.SafeReach m.reset_read_cursor
  | read {m} :
      message.SafeReach m → m._read_cursor < m._parts.length →
      message.SafeReach m.stream_read_string.1

end zmqpp

namespace zmqpp

theorem mul_pow_lor_eq_add : ∀ (k q b : Nat), b < 2 ^ k →
    (q * 2 ^ k) ||| b = q * 2 ^ k + b := by
  intro k
  induction k with
  | zero =>
    intro q b hb
    have hb0 : b = 0 := by omega
    subst hb0
    simp
  | succ k ih =>
    intro q b hb
    have hN : b < 2 * 2 ^ k := by
      rw [pow_succ] at hb; omega
    have hb2 : b / 2 < 2 ^ k := by omega
    have hq : q * 2 ^ (k + 1) = Nat.bit false (q * 2 ^ k) := by
      simp [Nat.bit, pow_succ]; ring
    have hbd : Nat.bit (Nat.bodd b) (Nat.div2 b) = b := Nat.bit_decomp b
    rw [hq, ← hbd, Nat.lor_bit]
    rw [Nat.div2_val]
    rw [ih q (b / 2) hb2]
    have hmod : 2 * (b / 2) + (if Nat.bodd b then 1 else 0) = b := by
      cases hbo : Nat.bodd b
      · have hsum := Nat.bodd_add_div2 b
        rw [hbo] at hsum
        simp at hsum ⊢
        omega
      · have hsum := Nat.bodd_add_div2 b
        rw [hbo] at hsum
        simp at hsum ⊢
        omega
    cases hbo : Nat.bodd b <;>
      simp [Nat.bit, hbo, Nat.div2_val] at hmod ⊢ <;>
      omega

theorem and_255_eq_mod (a : Nat) : a &&& 0xFF = a % 256 := by
  have h := Nat.and_pow_two_sub_one_eq_mod a 8
  norm_num at h
  exact h

theorem lor_byte_8 (q b : Nat) (hb : b < 256) :
    q * 256 ||| b = q * 256 + b := by
  have h := mul_pow_lor_eq_add 8 q b (by norm_num; omega)
  norm_num at h
  exact h

theorem lor_byte_16 (q b : Nat) (hb : b < 65536) :
    q * 65536 ||| b = q * 65536 + b := by
  have h := mul_pow_lor_eq_add 16 q b (by norm_num; omega)
  norm_num at h
  exact h

theorem lor_byte_24 (q b : Nat) (hb : b < 16777216) :
    q * 16777216 ||| b = q * 16777216 + b := by
  have h := mul_pow_lor_eq_add 24 q b (by norm_num; omega)
  norm_num at h
  exact h

theorem lor_byte_32 (q b : Nat) (hb : b < 4294967296) :
    q * 4294967296 ||| b = q * 4294967296 + b := by
  have h := mul_pow_lor_eq_add 32 q b (by norm_num; omega)
  norm_num at h
  exact h

theorem from_to_u16 (x : Nat) (hx : x < 2 ^ 16) :
    from_be_u16 (to_be_u16 x) = x := by
  unfold from_be_u16 to_be_u16
  simp only [List.getD_cons_zero, List.getD_cons_succ]
  rw [and_255_eq_mod, and_255_eq_mod, Nat.shiftRight_eq_div_pow,
    Nat.shiftLeft_eq]
  norm_num
  rw [lor_byte_8 _ _ (by omega)]
  omega

theorem from_to_u32 (x : Nat) (hx : x < 2 ^ 32) :
    from_be_u32 (to_be_u32 x) = x := by
  unfold from_be_u32 to_be_u32
  simp only [List.getD_cons_zero, List.getD_cons_succ]
  simp only [and_255_eq_mod, Nat.shiftRight_eq_div_pow, Nat.shiftLeft_eq,
    Nat.lor_assoc]
  norm_num
  rw [lor_byte_8 _ _ (by omega)]
  rw [lor_byte_16 _ _ (by omega)]
  rw [lor_byte_24 _ _ (by omega)]
  omega

theorem from_to_u64 (x : Nat) (hx : x < 2 ^ 64) :
    from_be_u64 (to_be_u64 x) = x := by
  unfold from_be_u64 to_be_u64
  simp only [List.getD_cons_zero, List.getD_cons_succ]
  simp only [and_255_eq_mod, Nat.shiftRight_eq_div_pow, Nat.shiftLeft_eq,
    Nat.lor_assoc]
  norm_num
  rw [lor_byte_8 _ _ (by omega)]
  rw [lor_byte_16 _ _ (by omega)]
  rw [lor_byte_24 _ _ (by omega)]
  rw [lor_byte_8 _ _ (by omega)]
  rw [lor_byte_16 _ _ (by omega)]
  rw [lor_byte_24 _ _ (by omega)]
  rw [lor_byte_32 _ _ (by omega)]
  omega

theorem toSigned_toUnsigned_16 (x : Int)
    (hlo : -(2 ^ 15) ≤ x) (hhi : x < 2 ^ 15) :
    toSigned 16 (toUnsigned 16 x) = x := by
  unfold toSigned toUnsigned
  norm_num
  split <;> omega

theorem toSigned_toUnsigned_32 (x : Int)
    (hlo : -(2 ^ 31) ≤ x) (hhi : x < 2 ^ 31) :
    toSigned 32 (toUnsigned 32 x) = x := by
  unfold toSigned toUnsigned
  norm_num
  split <;> omega

theorem toSigned_toUnsigned_64 (x : Int)
    (hlo : -(2 ^ 63) ≤ x) (hhi : x < 2 ^ 63) :
    toSigned 64 (toUnsigned 64 x) = x := by
  unfold toSigned toUnsigned
  norm_num
  split <;> omega

theorem toUnsigned_lt (w : Nat) (x : Int) : toUnsigned w x < 2 ^ w := by
  unfold toUnsigned
  have hpos : (0 : Int) < 2 ^ w := by positivity
  have h0 : 0 ≤ x % (2 : Int) ^ w := Int.emod_nonneg x (by positivity)
  have h1 : x % (2 : Int) ^ w < ((2 ^ w : Nat) : Int) := by
    push_cast
    exact Int.emod_lt_of_pos x hpos
  exact (Int.toNat_lt h0).mpr h1

theorem toUnsigned_of_lt (w : Nat) (x : Int) (h0 : 0 ≤ x)
    (h1 : x < (2 : Int) ^ w) : toUnsigned w x = x.toNat := by
  unfold toUnsigned
  rw [Int.emod_eq_of_lt h0 h1]

theorem roundtrip_i16 (x : Int) (hlo : -(2 ^ 15) ≤ x) (hhi : x < 2 ^ 15) :
    from_be_i16 (to_be_i16 x) = x := by
  unfold from_be_i16 to_be_i16
  rw [from_to_u16 _ (toUnsigned_lt 16 x)]
  exact toSigned_toUnsigned_16 x hlo hhi

theorem roundtrip_i32 (x : Int) (hlo : -(2 ^ 31) ≤ x) (hhi : x < 2 ^ 31) :
    from_be_i32 (to_be_i32 x) = x := by
  unfold from_be_i32 to_be_i32
  rw [from_to_u32 _ (toUnsigned_lt 32 x)]
  exact toSigned_toUnsigned_32 x hlo hhi

theorem roundtrip_i64 (x : Int) (hlo : -(2 ^ 63) ≤ x) (hhi : x < 2 ^ 63) :
    from_be_i64 (to_be_i64 x) = x := by
  unfold from_be_i64 to_be_i64
  rw [from_to_u64 _ (toUnsigned_lt 64 x)]
  exact toSigned_toUnsigned_64 x hlo hhi

theorem shiftRight_shiftRight (u a b : Nat) :
    u >>> a >>> b = u >>> (a + b) :=
  (Nat.shiftRight_add u a b).symm

theorem cstrlen_le (s : List Nat) : cstrlen s ≤ s.length := by
  induction s with
  | nil => simp [cstrlen]
  | cons b rest ih =>
    unfold cstrlen
    split
    · simp
    · simp only [List.length_cons]
      omega

theorem cstrlen_append_zero (s : List Nat) :
    cstrlen (s ++ [0]) = cstrlen s := by
  induction s with
  | nil => simp [cstrlen]
  | cons b rest ih =>
    show cstrlen (b :: (rest ++ [0])) = cstrlen (b :: rest)
    unfold cstrlen
    split <;> simp [ih]

theorem cstrlen_of_not_mem (s : List Nat) (h : 0 ∉ s) :
    cstrlen s = s.length := by
  induction s with
  | nil => rfl
  | cons b rest ih =>
    unfold cstrlen
    have hb : ¬ b = 0 := by
      intro hb0
      exact h (hb0 ▸ List.mem_cons_self b rest)
    rw [if_neg hb, ih (fun hm => h (List.mem_cons_of_mem b hm))]
    simp

theorem stream_write_string_parts (m : message) (s : List Nat) :
    (m.stream_write_string s)._parts =
      m._parts ++ [{ bytes := s.take (cstrlen s), sent := false }] := by
  unfold message.stream_write_string message.stream_write_cstr
    message.add_raw
  simp only [cstrlen_append_zero]
  have hle := cstrlen_le s
  have hz : cstrlen s - s.length = 0 := by omega
  rw [List.take_append_eq_append_take, hz]
  simp

@[simp] theorem add_raw_parts (m : message) (s : List Nat) :
    (m.add_raw s)._parts = m._parts ++ [{ bytes := s, sent := false }] :=
  rfl

@[simp] theorem add_raw_cursor (m : message) (s : List Nat) :
    (m.add_raw s)._read_cursor = m._read_cursor :=
  rfl

@[simp] theorem stream_write_scalar_parts (m : message) (t : scalar_type)
    (x : Int) :
    (m.stream_write_scalar t x)._parts =
      m._parts ++ [{ bytes := to_be t x, sent := false }] :=
  rfl

@[simp] theorem stream_write_scalar_cursor (m : message) (t : scalar_type)
    (x : Int) :
    (m.stream_write_scalar t x)._read_cursor = m._read_cursor :=
  rfl

@[simp] theorem stream_write_cstr_parts (m : message) (s : List Nat) :
    (m.stream_write_cstr s)._parts =
      m._parts ++ [{ bytes := s.take (cstrlen s), sent := false }] :=
  rfl

@[simp] theorem stream_write_cstr_cursor (m : message) (s : List Nat) :
    (m.stream_write_cstr s)._read_cursor = m._read_cursor :=
  rfl

@[simp] theorem stream_write_string_cursor (m : message) (s : List Nat) :
    (m.stream_write_string s)._read_cursor = m._read_cursor :=
  rfl

@[simp] theorem push_front_parts (m : message) (s : List Nat) :
    (m.push_front s)._parts =
      { bytes := s, sent := false } :: m._parts :=
  rfl

@[simp] theorem push_front_cursor (m : message) (s : List Nat) :
    (m.push_front s)._read_cursor = m._read_cursor :=
  rfl

@[simp] theorem push_back_parts (m : message) (s : List Nat) :
    (m.push_back s)._parts = m._parts ++ [{ bytes := s, sent := false }] :=
  rfl

@[simp] theorem push_back_cursor (m : message) (s : List Nat) :
    (m.push_back s)._read_cursor = m._read_cursor :=
  rfl

@[simp] theorem pop_front_cursor (m : message) :
    m.pop_front._read_cursor = m._read_cursor :=
  rfl

@[simp] theorem pop_back_cursor (m : message) :
    m.pop_back._read_cursor = m._read_cursor :=
  rfl

@[simp] theorem reset_read_cursor_cursor (m : message) :
    m.reset_read_cursor._read_cursor = 0 :=
  rfl

@[simp] theorem next_cursor (m : message) :
    (message.next m).1._read_cursor = m._read_cursor + 1 :=
  rfl

@[simp] theorem stream_read_string_fst_parts (m : message) :
    m.stream_read_string.1._parts = m._parts :=
  rfl

@[simp] theorem stream_read_string_fst_cursor (m : message) :
    m.stream_read_string.1._read_cursor = m._read_cursor + 1 :=
  rfl

@[simp] theorem stream_read_string_snd (m : message) :
    m.stream_read_string.2 = m.get_string m._read_cursor :=
  rfl

@[simp] theorem stream_read_i64_snd (m : message) :
    m.stream_read_i64.2 = m.get_i64 m._read_cursor :=
  rfl

@[simp] theorem mk0_parts : message.mk0._parts = [] := rfl

@[simp] theorem mk0_cursor : message.mk0._read_cursor = 0 := rfl

/-- C1: for every supported scalar type T (signed and unsigned 16/32/64
bit integers, 32/64 bit floating point, the latter embedded as IEEE-754
bit patterns, which the union reinterpretation of endian.hpp maps
bit-exactly) and every representable value x of T, writing x with
`to_be` and reading the buffer back with `from_be<T>` returns exactly
x. -/
theorem C1_codec_roundtrip : ∀ (t : scalar_type) (x : Int),
    t.representable x → from_be t (to_be t x) = x := by
  intro t x hx
  cases t <;> simp only [scalar_type.representable] at hx <;>
    obtain ⟨h0, h1⟩ := hx <;> simp only [from_be, to_be]
  case u16 =>
    rw [from_to_u16 _ (by omega)]
    omega
  case i16 => exact roundtrip_i16 x h0 h1
  case u32 =>
    rw [from_to_u32 _ (by omega)]
    omega
  case i32 => exact roundtrip_i32 x h0 h1
  case u64 =>
    rw [from_to_u64 _ (by omega)]
    omega
  case i64 => exact roundtrip_i64 x h0 h1
  case f32 =>
    unfold from_be_f32 to_be_f32
    rw [from_to_u32 _ (by omega)]
    omega
  case f64 =>
    unfold from_be_f64 to_be_f64
    rw [from_to_u64 _ (by omega)]
    omega

theorem C1_codec_roundtrip_witness :
    (scalar_type.representable .i32 (-1) ∧
      from_be .i32 (to_be .i32 (-1)) = -1) ∧
    (scalar_type.representable .u64 (2 ^ 64 - 1) ∧
      from_be .u64 (to_be .u64 (2 ^ 64 - 1)) = 2 ^ 64 - 1) := by
  constructor
  · constructor
    · show -(2 ^ 31) ≤ (-1 : Int) ∧ (-1 : Int) < 2 ^ 31
      decide
    · exact C1_codec_roundtrip .i32 (-1)
        (show -(2 ^ 31) ≤ (-1 : Int) ∧ (-1 : Int) < 2 ^ 31 by decide)
  · constructor
    · show (0 : Int) ≤ 2 ^ 64 - 1 ∧ (2 ^ 64 - 1 : Int) < 2 ^ 64
      decide
    · exact C1_codec_roundtrip .u64 (2 ^ 64 - 1)
        (show (0 : Int) ≤ 2 ^ 64 - 1 ∧ (2 ^ 64 - 1 : Int) < 2 ^ 64 by decide)

/-- C7: for every supported fixed-width integer value x, `to_be` writes
exactly `sizeof(x)` bytes in big-endian order: the byte at offset i is
byte `sizeof(x) - 1 - i` of the two-complement representation of x,
i.e. `(u >> (8 * (sizeof(x) - 1 - i))) & 0xFF` where u is x cast to the
unsigned type of the same width, and no byte beyond offset
`sizeof(x) - 1` is produced (the output has exactly `sizeof(x)`
entries). -/
theorem C7_to_be_layout : ∀ (t : scalar_type) (x : Int),
    t.integer = true → t.representable x →
    (to_be t x).length = t.width ∧
    (∀ i, i < t.width →
      (to_be t x).getD i 0 =
        (toUnsigned (8 * t.width) x >>> (8 * (t.width - 1 - i))) &&& 0xFF) := by
  intro t x hint hx
  cases t <;> simp only [scalar_type.integer] at hint <;>
    simp only [scalar_type.representable] at hx
  case u16 =>
    obtain ⟨h0, h1⟩ := hx
    refine ⟨rfl, ?_⟩
    intro i hi
    have hu : toUnsigned (8 * scalar_type.width .u16) x = x.toNat :=
      toUnsigned_of_lt 16 x h0 h1
    rw [hu]
    simp only [scalar_type.width] at hi ⊢
    interval_cases i <;>
      simp [to_be, to_be_u16, Nat.shiftRight_zero]
  case i16 =>
    refine ⟨rfl, ?_⟩
    intro i hi
    simp only [scalar_type.width] at hi ⊢
    interval_cases i <;>
      simp [to_be, to_be_i16, to_be_u16, Nat.shiftRight_zero]
  case u32 =>
    obtain ⟨h0, h1⟩ := hx
    refine ⟨rfl, ?_⟩
    intro i hi
    have hu : toUnsigned (8 * scalar_type.width .u32) x = x.toNat :=
      toUnsigned_of_lt 32 x h0 h1
    rw [hu]
    simp only [scalar_type.width] at hi ⊢
    interval_cases i <;>
      simp [to_be, to_be_u32, Nat.shiftRight_zero]
  case i32 =>
    refine ⟨rfl, ?_⟩
    intro i hi
    simp only [scalar_type.width] at hi ⊢
    interval_cases i <;>
      simp [to_be, to_be_i32, to_be_u32, Nat.shiftRight_zero]
  case u64 =>
    obtain ⟨h0, h1⟩ := hx
    refine ⟨rfl, ?_⟩
    intro i hi
    have hu : toUnsigned (8 * scalar_type.width .u64) x = x.toNat :=
      toUnsigned_of_lt 64 x h0 h1
    rw [hu]
    simp only [scalar_type.width] at hi ⊢
    interval_cases i <;>
      simp [to_be, to_be_u64, Nat.shiftRight_zero, shiftRight_shiftRight]
  case i64 =>
    refine ⟨rfl, ?_⟩
    intro i hi
    simp only [scalar_type.width] at hi ⊢
    interval_cases i <;>
      simp [to_be, to_be_i64, to_be_u64, Nat.shiftRight_zero,
        shiftRight_shiftRight]
  case f32 => exact Bool.noConfusion hint
  case f64 => exact Bool.noConfusion hint

theorem C7_to_be_layout_witness :
    (to_be .u32 305419896).length = 4 ∧
    (to_be .u32 305419896).getD 0 0 =
      (toUnsigned 32 305419896 >>> 24) &&& 0xFF := by
  have h := C7_to_be_layout .u32 305419896 rfl
    (show (0 : Int) ≤ 305419896 ∧ (305419896 : Int) < 2 ^ 32 by decide)
  exact ⟨h.1, h.2 0 (by decide)⟩

/-- C2 counterexample: move-assigning a 1-part message into a
destination that itself holds 1 part leaves the source with that part
(the implementation swaps states), so the source does not end with
`parts() == 0` as the claim requires. -/
theorem C2_counterexample :
    (message.move_assign
      ({ _parts := [{ bytes := [2], sent := false }],
         _read_cursor := 0 } : message)
      ({ _parts := [{ bytes := [1], sent := false }],
         _read_cursor := 0 } : message)).2.parts = 1 := by
  decide

/-- C2 amended: move-construct hands the full source state (frames and
cursor) to the destination and leaves the source with zero parts and
whatever indeterminate value the uninitialised cursor of the new object
held (the move constructor never initialises `_read_cursor` before the
swap); move-assign hands the full source state to the destination and
leaves the source with the old frames of the destination and cursor 0, so
the source ends with zero parts only when the destination was empty. -/
theorem C2_amended : ∀ (d m : message) (g : Nat),
    (message.move_construct m g).1 = m ∧
    (message.move_construct m g).2 =
      { _parts := [], _read_cursor := g } ∧
    (message.move_construct m g).2.parts = 0 ∧
    (message.move_assign d m).1 = m ∧
    (message.move_assign d m).2 =
      { _parts := d._parts, _read_cursor := 0 } ∧
    (message.move_assign d m).2.parts = d.parts := by
  intro d m g
  exact ⟨rfl, rfl, rfl, rfl, rfl, rfl⟩

/-- C3 counterexample: inserting the `std::string` with bytes
97, 0, 98 appends a frame holding only the single byte 97 (the
inserter goes through `c_str()` and `strlen`), so the frame size is 1
and not the string size 3 the claim requires. -/
theorem C3_counterexample :
    (message.mk0.stream_write_string [97, 0, 98])._parts =
      [{ bytes := [97], sent := false }] ∧
    (message.mk0.stream_write_string [97, 0, 98]).size 0 = .ok 1 := by
  decide

/-- C3 amended: stream insertion of a C string or `std::string`
appends exactly one new trailing frame; a C string contributes its
bytes up to the terminating NUL; a `std::string` is passed through
`c_str()` and measured with `strlen`, so the frame holds the bytes up
to the first NUL byte of the string and its size equals the index of
that first NUL, which equals `s.size()` exactly when the string
contains no embedded NUL byte. -/
theorem C3_amended : ∀ (m : message) (s : List Nat),
    (m.stream_write_cstr s)._parts =
      m._parts ++ [{ bytes := s.take (cstrlen s), sent := false }] ∧
    (m.stream_write_string s)._parts =
      m._parts ++ [{ bytes := s.take (cstrlen s), sent := false }] ∧
    (0 ∉ s →
      (m.stream_write_string s)._parts =
        m._parts ++ [{ bytes := s, sent := false }] ∧
      (m.stream_write_string s).size m.parts = .ok s.length) := by
  intro m s
  refine ⟨rfl, stream_write_string_parts m s, ?_⟩
  intro hs
  have hfull : s.take (cstrlen s) = s := by
    rw [cstrlen_of_not_mem s hs, List.take_length]
  have hp := stream_write_string_parts m s
  rw [hfull] at hp
  constructor
  · exact hp
  · unfold message.size
    have hlt : m.parts < (m.stream_write_string s)._parts.length := by
      rw [hp]
      simp [message.parts]
    rw [dif_pos hlt]
    simp only [hp, message.parts]
    rw [List.getElem_concat_length m._parts
      { bytes := s, sent := false } m._parts.length rfl]

theorem C3_amended_witness :
    (message.mk0.stream_write_string [104, 105])._parts =
      message.mk0._parts ++ [{ bytes := [104, 105], sent := false }] ∧
    (message.mk0.stream_write_string [104, 105]).size message.mk0.parts =
      .ok 2 := by
  have h := (C3_amended message.mk0 [104, 105]).2.2 (by decide)
  exact ⟨h.1, h.2⟩

/-- C4 counterexample: one call of the public operation `next()` on a
fresh (empty) message yields a reachable state whose read cursor is 1
while `parts()` is 0, violating the claimed invariant
`cursor <= parts()`. -/
theorem C4_counterexample :
    (message.next message.mk0).1._parts.length <
      (message.next message.mk0).1._read_cursor := by
  decide

/-- C4 amended: the read cursor is a natural number, and
`cursor <= parts()` holds in every state reachable from a fresh
message by stream insertion, push front/back, add_raw, cursor reset
and stream extraction performed only while the cursor is strictly
below the part count; however `next()` and stream extraction advance
the cursor unconditionally (so running them at or past the end pushes
the cursor beyond `parts()`), and pop/remove shrink the part list
without adjusting the cursor. Except for `reset_read_cursor` (and the
wholesale state replacement of move/copy) no operation decreases the
cursor: insertions, pops and remove leave it unchanged, extraction and
`next()` increase it by one. -/
theorem C4_amended :
    (∀ m : message, message.SafeReach m →
      m._read_cursor ≤ m._parts.length) ∧
    (∀ m : message,
      (message.next m).1._read_cursor = m._read_cursor + 1 ∧
      m.stream_read_string.1._read_cursor = m._read_cursor + 1 ∧
      m.reset_read_cursor._read_cursor = 0 ∧
      m.pop_front._read_cursor = m._read_cursor ∧
      m.pop_back._read_cursor = m._read_cursor) ∧
    (∀ (m : message) (t : scalar_type) (x : Int),
      (m.stream_write_scalar t x)._read_cursor = m._read_cursor) ∧
    (∀ (m : message) (s : List Nat),
      (m.stream_write_cstr s)._read_cursor = m._read_cursor ∧
      (m.stream_write_string s)._read_cursor = m._read_cursor ∧
      (m.push_front s)._read_cursor = m._read_cursor ∧
      (m.push_back s)._read_cursor = m._read_cursor ∧
      (m.add_raw s)._read_cursor = m._read_cursor) ∧
    (∀ (m : message) (i : Nat) (m2 : message),
      m.remove i = .ok m2 → m2._read_cursor = m._read_cursor) := by
  refine ⟨?_, ?_, ?_, ?_, ?_⟩
  · intro m h
    induction h with
    | empty => simp
    | write_scalar t x _ ih =>
      simp only [stream_write_scalar_parts, stream_write_scalar_cursor,
        List.length_append]
      omega
    | write_cstr s _ ih =>
      simp only [stream_write_cstr_parts, stream_write_cstr_cursor,
        List.length_append]
      omega
    | write_string s _ ih =>
      rw [stream_write_string_parts, stream_write_string_cursor]
      simp only [List.length_append]
      omega
    | add_raw s _ ih =>
      simp only [add_raw_parts, add_raw_cursor, List.length_append]
      omega
    | push_front s _ ih =>
      simp only [push_front_parts, push_front_cursor, List.length_cons]
      omega
    | push_back s _ ih =>
      simp only [push_back_parts, push_back_cursor, List.length_append]
      omega
    | reset _ _ => simp
    | read _ hlt _ =>
      simp only [stream_read_string_fst_parts, stream_read_string_fst_cursor]
      omega
  · intro m
    exact ⟨rfl, rfl, rfl, rfl, rfl⟩
  · intro m t x
    rfl
  · intro m s
    exact ⟨rfl, rfl, rfl, rfl, rfl⟩
  · intro m i m2 h
    unfold message.remove at h
    split at h
    · cases h
      rfl
    · cases h

theorem C4_amended_witness :
    (message.mk0.stream_write_cstr [1]).stream_read_string.1._read_cursor ≤
      (message.mk0.stream_write_cstr [1]).stream_read_string.1._parts.length :=
  C4_amended.1 _
    (message.SafeReach.read
      (message.SafeReach.write_cstr [1] message.SafeReach.empty)
      (by decide))

/-- C5: stream extraction decodes the frame at the current read cursor
into the target, advances the cursor by one, and fails with the
exhaustion error (the range exception thrown through the extraction
path) exactly when the cursor is already at or past `parts()` at the
time of the call; shown for the `std::string` and `int64_t` target
instantiations, whose out-of-range behaviour is shared by every
specialisation because they all reach the frame through
`raw_data`/`size`. -/
theorem C5_stream_extraction : ∀ m : message,
    m.stream_read_string.1._parts = m._parts ∧
    m.stream_read_string.1._read_cursor = m._read_cursor + 1 ∧
    (m.stream_read_string.2 = .range_error ↔
      m._parts.length ≤ m._read_cursor) ∧
    (m.stream_read_i64.2 = .range_error ↔
      m._parts.length ≤ m._read_cursor) ∧
    (∀ h : m._read_cursor < m._parts.length,
      m.stream_read_string.2 = .ok (m._parts[m._read_cursor].bytes)) := by
  intro m
  refine ⟨rfl, rfl, ?_, ?_, ?_⟩
  · by_cases hc : m._read_cursor < m._parts.length
    · simp [message.get_string, message.raw_data, hc]
      try omega
    · simp [message.get_string, message.raw_data, hc]
      try omega
  · by_cases hc : m._read_cursor < m._parts.length
    · simp only [stream_read_i64_snd, message.get_i64, dif_pos hc]
      split
      · simp
        omega
      · simp
        omega
    · simp [message.get_i64, hc]
      omega
  · intro h
    simp [message.get_string, message.raw_data, h]

theorem C5_stream_extraction_witness :
    (message.mk0.stream_write_cstr [5]).stream_read_string.2 =
      .ok [5] := by
  have h := (C5_stream_extraction
    (message.mk0.stream_write_cstr [5])).2.2.2.2 (by decide)
  simpa using h

/-- C8 counterexample: calling `remove` (and likewise `sent`) with an
index outside the valid range, here index 0 of an empty message, does
not raise the range error: the source performs no bounds check on
these paths, so the call is undefined behaviour instead of a reported
error. -/
theorem C8_counterexample :
    message.remove message.mk0 0 = .undefined ∧
    message.sent_op message.mk0 0 = .undefined ∧
    message.remove message.mk0 0 ≠ .range_error ∧
    message.sent_op message.mk0 0 ≠ .range_error := by
  decide

/-- C8 amended: the indexed accessors `size`, `get<T>`, `raw_data` and
`raw_msg` raise the range error for every index outside
`[0, parts())`, and that error surfaces synchronously; but `remove`
and `sent` perform no bounds check at all (out-of-range calls are
undefined behaviour, `sent` additionally only guards the double-mark
case with a debug assert), so they raise no error. -/
theorem C8_amended : ∀ (m : message) (part : Nat),
    m._parts.length ≤ part →
    m.size part = .range_error ∧
    m.raw_data part = .range_error ∧
    m.raw_msg part = .range_error ∧
    m.get_string part = .range_error ∧
    m.get_i64 part = .range_error ∧
    m.remove part = .undefined ∧
    m.sent_op part = .undefined := by
  intro m part h
  have hn : ¬ part < m._parts.length := by omega
  refine ⟨?_, ?_, ?_, ?_, ?_, ?_, ?_⟩
  all_goals
    simp [message.size, message.raw_data, message.raw_msg,
      message.get_string, message.get_i64, message.remove,
      message.sent_op, hn]

theorem C8_amended_witness :
    message.size message.mk0 3 = .range_error :=
  (C8_amended message.mk0 3 (by decide)).1

/-- C9: removing index i from a message with k parts (i in range)
yields k - 1 parts where the frames before i keep their positions, every
frame after i moves down one position, and the surviving frames (bytes
included) are exactly the original ones in their original relative
order; the cursor is untouched. -/
theorem C9_remove_shifts : ∀ (m : message) (i : Nat),
    i < m._parts.length →
    ∃ m2, m.remove i = .ok m2 ∧
      m2._parts.length = m._parts.length - 1 ∧
      (∀ j, j < i → m2._parts.getD j default = m._parts.getD j default) ∧
      (∀ j, i < j → j < m._parts.length →
        m2._parts.getD (j - 1) default = m._parts.getD j default) ∧
      m2._read_cursor = m._read_cursor := by
  intro m i h
  refine ⟨{ m with _parts := m._parts.eraseIdx i }, ?_, ?_, ?_, ?_, rfl⟩
  · unfold message.remove
    rw [if_pos h]
  · simp [List.length_eraseIdx, h]
  · intro j hj
    have hlen : (m._parts.eraseIdx i).length = m._parts.length - 1 := by
      simp [List.length_eraseIdx, h]
    have hj2 : j < (m._parts.eraseIdx i).length := by omega
    rw [List.getD_eq_getElem _ _ hj2,
      List.getD_eq_getElem _ _ (by omega),
      List.getElem_eraseIdx_of_lt _ _ _ hj2 hj]
  · intro j hij hjlen
    have hlen : (m._parts.eraseIdx i).length = m._parts.length - 1 := by
      simp [List.length_eraseIdx, h]
    have hj2 : j - 1 < (m._parts.eraseIdx i).length := by omega
    rw [List.getD_eq_getElem _ _ hj2,
      List.getD_eq_getElem _ _ (by omega),
      List.getElem_eraseIdx_of_ge _ _ _ hj2 (by omega)]
    have hidx : j - 1 + 1 = j := by omega
    simp only [hidx]

theorem C9_remove_shifts_witness :
    ∃ m2,
      message.remove
        { _parts := [{ bytes := [1], sent := false },
                     { bytes := [2], sent := false },
                     { bytes := [3], sent := false }],
          _read_cursor := 0 } 1 = .ok m2 ∧
      m2._parts.length = 3 - 1 ∧
      (∀ j, j < 1 →
        m2._parts.getD j default =
          ([{ bytes := [1], sent := false },
             { bytes := [2], sent := false },
             { bytes := [3], sent := false }] : List frame).getD j default) ∧
      (∀ j, 1 < j → j < 3 →
        m2._parts.getD (j - 1) default =
          ([{ bytes := [1], sent := false },
             { bytes := [2], sent := false },
             { bytes := [3], sent := false }] : List frame).getD j default) ∧
      m2._read_cursor = 0 :=
  C9_remove_shifts
    { _parts := [{ bytes := [1], sent := false },
                 { bytes := [2], sent := false },
                 { bytes := [3], sent := false }],
      _read_cursor := 0 } 1 (by decide)

/-- C6: `is_signal()` returns true exactly when the message has one
part, the sole frame is exactly the signal frame width (8 bytes), and
decoding the frame as a big-endian `int64_t` and discarding the low
byte (arithmetic shift right by 8) yields the reserved header pattern;
moreover a message whose sole frame was written through the signal
inserter (`operator<< <signal>`) is recognised, for every header
pattern that fits the 56 reserved bits and every code byte. -/
theorem C6_is_signal_iff :
    (∀ (hdr : Int) (m : message),
      m.is_signal hdr = true ↔
        (m.parts = 1 ∧
         (m._parts.getD 0 { bytes := [], sent := false }).bytes.length =
           signal_frame_width ∧
         sar8 (from_be_i64
           (m._parts.getD 0 { bytes := [], sent := false }).bytes) = hdr)) ∧
    (∀ (hdr : Int) (code : Nat) (m : message),
      m._parts = [] → -(2 ^ 55) ≤ hdr → hdr < 2 ^ 55 → code < 256 →
      (m.stream_write_signal hdr code).is_signal hdr = true) := by
  constructor
  · intro hdr m
    unfold message.is_signal
    simp [Bool.and_eq_true, beq_iff_eq, and_assoc]
  · intro hdr code m hm hl hh hc
    have hv1 : -(2 ^ 63) ≤ signal_value hdr code := by
      unfold signal_value
      omega
    have hv2 : signal_value hdr code < 2 ^ 63 := by
      unfold signal_value
      omega
    have hsar : sar8 (signal_value hdr code) = hdr := by
      unfold sar8 signal_value
      omega
    unfold message.stream_write_signal
    unfold message.is_signal message.parts
    simp only [stream_write_scalar_parts, hm, List.nil_append]
    simp only [List.length_cons, List.length_nil, List.getD_cons_zero]
    have hlen : (to_be .i64 (signal_value hdr code)).length =
        signal_frame_width := by
      simp [to_be, to_be_i64, to_be_u64, signal_frame_width]
    have hdec : from_be_i64 (to_be .i64 (signal_value hdr code)) =
        signal_value hdr code := by
      show from_be_i64 (to_be_i64 (signal_value hdr code)) =
        signal_value hdr code
      exact roundtrip_i64 _ hv1 hv2
    simp [hlen, hdec, hsar]

theorem C6_is_signal_iff_witness :
    (message.mk0.stream_write_signal 20015998343868 7).is_signal
      20015998343868 = true :=
  C6_is_signal_iff.2 20015998343868 7 message.mk0 rfl
    (by decide) (by decide) (by decide)

/-- C10: when the read cursor already equals `parts()`, stream
extraction throws (the cursor path raises the range exception) but the
post-increment has already advanced the cursor, so afterwards the
cursor equals `parts() + 1` and `remaining()`, computed with size_t
subtraction, wraps to 2^64 - 1. -/
theorem C10_failed_extraction_advances : ∀ m : message,
    m._read_cursor = m._parts.length →
    m.stream_read_string.2 = .range_error ∧
    m.stream_read_string.1._read_cursor = m._parts.length + 1 ∧
    m.stream_read_string.1.remaining = 2 ^ 64 - 1 := by
  intro m h
  refine ⟨?_, ?_, ?_⟩
  · simp [message.get_string, message.raw_data, h]
  · simp [h]
  · unfold message.remaining
    simp only [stream_read_string_fst_parts, stream_read_string_fst_cursor, h]
    omega

theorem C10_failed_extraction_advances_witness :
    message.mk0.stream_read_string.2 = .range_error ∧
    message.mk0.stream_read_string.1.remaining = 2 ^ 64 - 1 :=
  ⟨(C10_failed_extraction_advances message.mk0 rfl).1,
   (C10_failed_extraction_advances message.mk0 rfl).2.2⟩

end zmqpp
